import Mathlib

/-!
Verification of the Stablefoard stock-analysis agent core
(`src/agent/gemini-client.js`, `src/agent/langgraph-workflow.js`,
`src/agent/stock-analyzer.js`, `src/utils/validators.js`).

Modelling conventions:
* JS strings are `List Char`; JSON numbers are modelled as integers
  (no claim exercises fractional number literals or float formatting).
* `JSON.parse` / `JSON.stringify` are modelled by an executable
  recursive-descent parser and a compact serializer over the `Json` type;
  engine-specific error-message texts are replaced by fixed strings.
* Promises/exceptions are modelled with `Except`; `console` output that a
  claim mentions is collected in an explicit log list.
-/

namespace Stablefoard

/-- JSON values as produced by `JSON.parse`.  Objects are association
lists (a JS object literal cannot contain duplicate keys, so lists with
distinct keys are the image of the embedding; the extra generality is
harmless).  Numbers are modelled as integers. -/
inductive Json where
  | null : Json
  | bool (b : Bool) : Json
  | num (n : Int) : Json
  | str (s : List Char) : Json
  | arr (elems : List Json) : Json
  | obj (fields : List (List Char × Json)) : Json

/-- First value bound to a key in an association list. -/
def assocFind (k : List Char) : List (List Char × Json) → Option Json
  | [] => none
  | (k2, v) :: t => if k2 = k then some v else assocFind k t

/-- Lookup of a key in a JSON object, `none` for absent keys or non-objects. -/
def jLookup (k : List Char) : Json → Option Json
  | .obj kvs => assocFind k kvs
  | _ => none

/-- JSON whitespace (also the characters `String.prototype.trim` removes
that occur in this development). -/
def isJsonWs (c : Char) : Bool :=
  c = ' ' || c = '\t' || c = '\n' || c = '\r' || c.toNat = 11 || c.toNat = 12

/-- Drop leading JSON whitespace. -/
def skipWs (s : List Char) : List Char := s.dropWhile isJsonWs

/-- Model of `String.prototype.trim`. -/
def trimChars (s : List Char) : List Char :=
  ((s.dropWhile isJsonWs).reverse.dropWhile isJsonWs).reverse

/-- Lower-case hexadecimal digit, as emitted by `JSON.stringify` in
`\u00xx` escapes. -/
def hexDigitChar (n : Nat) : Char :=
  if n < 10 then Char.ofNat (48 + n) else Char.ofNat (87 + n)

/-- Decimal digit character. -/
def digitChar (n : Nat) : Char := Char.ofNat (48 + n)

/-- Decimal digits of a natural number, most significant first
(the integer part of JS number-to-string conversion). -/
def natToChars : Nat → List Char
  | n =>
    if _h : n < 10 then [digitChar n]
    else natToChars (n / 10) ++ [digitChar (n % 10)]
  decreasing_by exact Nat.div_lt_self (by omega) (by omega)

/-- JS number-to-string conversion restricted to integers. -/
def intToChars (n : Int) : List Char :=
  if n < 0 then '-' :: natToChars n.natAbs else natToChars n.toNat

/-- `JSON.stringify` escaping of a single character inside a string
literal. -/
def escapeChar (c : Char) : List Char :=
  if c = '"' then ['\\', '"']
  else if c = '\\' then ['\\', '\\']
  else if c = '\n' then ['\\', 'n']
  else if c = '\r' then ['\\', 'r']
  else if c = '\t' then ['\\', 't']
  else if c.toNat = 8 then ['\\', 'b']
  else if c.toNat = 12 then ['\\', 'f']
  else if c.toNat < 32 then
    ['\\', 'u', '0', '0', hexDigitChar (c.toNat / 16), hexDigitChar (c.toNat % 16)]
  else [c]

/-- `JSON.stringify` escaping of a whole string body. -/
def escapeString (s : List Char) : List Char := s.flatMap escapeChar

mutual

/-- Compact `JSON.stringify` (no indent argument), number leaves
restricted to integers. -/
def stringifyV : Json → List Char
  | .null => 'n' :: 'u' :: 'l' :: 'l' :: []
  | .bool true => 't' :: 'r' :: 'u' :: 'e' :: []
  | .bool false => 'f' :: 'a' :: 'l' :: 's' :: 'e' :: []
  | .num n => intToChars n
  | .str s => '"' :: (escapeString s ++ ['"'])
  | .arr xs => '[' :: (stringifyElems xs ++ [']'])
  | .obj kvs => '{' :: (stringifyFields kvs ++ ['}'])

/-- Comma-separated serialization of array elements. -/
def stringifyElems : List Json → List Char
  | [] => []
  | [x] => stringifyV x
  | x :: y :: xs => stringifyV x ++ ',' :: stringifyElems (y :: xs)

/-- Comma-separated serialization of object fields. -/
def stringifyFields : List (List Char × Json) → List Char
  | [] => []
  | [(k, v)] => '"' :: (escapeString k ++ '"' :: ':' :: stringifyV v)
  | (k, v) :: kv :: kvs =>
    ('"' :: (escapeString k ++ '"' :: ':' :: stringifyV v)) ++
      ',' :: stringifyFields (kv :: kvs)

end

/-- Value of a hexadecimal digit character (`JSON.parse` accepts both
cases). -/
def hexVal (c : Char) : Option Nat :=
  if '0' ≤ c ∧ c ≤ '9' then some (c.toNat - 48)
  else if 'a' ≤ c ∧ c ≤ 'f' then some (c.toNat - 87)
  else if 'A' ≤ c ∧ c ≤ 'F' then some (c.toNat - 55)
  else none

/-- Decoding of a single-character escape sequence in a JSON string. -/
def escDecode (e : Char) : Option Char :=
  if e = '"' then some '"'
  else if e = '\\' then some '\\'
  else if e = '/' then some '/'
  else if e = 'n' then some '\n'
  else if e = 'r' then some '\r'
  else if e = 't' then some '\t'
  else if e = 'b' then some (Char.ofNat 8)
  else if e = 'f' then some (Char.ofNat 12)
  else none

/-- Body of a JSON string literal after the opening quote: returns the
decoded characters and the input after the closing quote. -/
def parseStringBody : List Char → Except String (List Char × List Char)
  | [] => .error "Unterminated string in JSON"
  | c :: r =>
    if c = '"' then .ok ([], r)
    else if c = '\\' then
      match r with
      | [] => .error "Unterminated string in JSON"
      | e :: r2 =>
        if e = 'u' then
          match r2 with
          | h1 :: h2 :: h3 :: h4 :: r3 =>
            match hexVal h1, hexVal h2, hexVal h3, hexVal h4 with
            | some a, some b, some c1, some d =>
              (parseStringBody r3).map
                (fun p => (Char.ofNat (((a * 16 + b) * 16 + c1) * 16 + d) :: p.1, p.2))
            | _, _, _, _ => .error "Bad Unicode escape in JSON"
          | _ => .error "Bad Unicode escape in JSON"
        else
          match escDecode e with
          | none => .error "Bad escaped character in JSON"
          | some c2 => (parseStringBody r2).map (fun p => (c2 :: p.1, p.2))
    else (parseStringBody r).map (fun p => (c :: p.1, p.2))

/-- Maximal run of decimal digits, as a number, with the rest of the
input; `none` when the input does not start with a digit. -/
def parseNatDigits (s : List Char) : Option (Nat × List Char) :=
  let ds := s.takeWhile Char.isDigit
  if ds.isEmpty then none
  else some (ds.foldl (fun a c => a * 10 + (c.toNat - 48)) 0, s.drop ds.length)

mutual

/-- Fuel-indexed JSON value parser (model of `JSON.parse`, numbers
restricted to integer literals).  Per call the fuel drops by one; the
top-level entry point supplies fuel that is always sufficient. -/
def parseValue : Nat → List Char → Except String (Json × List Char)
  | 0, _ => .error "JSON nesting too deep"
  | Nat.succ f, s =>
    match skipWs s with
    | [] => .error "Unexpected end of JSON input"
    | c :: rest =>
      if c = '{' then
        match skipWs rest with
        | '}' :: r2 => .ok (.obj [], r2)
        | r => (parseFields f r).map (fun p => (Json.obj p.1, p.2))
      else if c = '[' then
        match skipWs rest with
        | ']' :: r2 => .ok (.arr [], r2)
        | r => (parseElems f r).map (fun p => (Json.arr p.1, p.2))
      else if c = '"' then
        (parseStringBody rest).map (fun p => (Json.str p.1, p.2))
      else if c = 't' then
        match rest with
        | 'r' :: 'u' :: 'e' :: r => .ok (.bool true, r)
        | _ => .error "Unexpected token in JSON"
      else if c = 'f' then
        match rest with
        | 'a' :: 'l' :: 's' :: 'e' :: r => .ok (.bool false, r)
        | _ => .error "Unexpected token in JSON"
      else if c = 'n' then
        match rest with
        | 'u' :: 'l' :: 'l' :: r => .ok (.null, r)
        | _ => .error "Unexpected token in JSON"
      else if c = '-' then
        match parseNatDigits rest with
        | some (n, r) => .ok (.num (-(n : Int)), r)
        | none => .error "Unexpected token in JSON"
      else if c.isDigit then
        match parseNatDigits (c :: rest) with
        | some (n, r) => .ok (.num (n : Int), r)
        | none => .error "Unexpected token in JSON"
      else .error "Unexpected token in JSON"

/-- One-or-more comma-separated array elements up to the closing
bracket. -/
def parseElems : Nat → List Char → Except String (List Json × List Char)
  | 0, _ => .error "JSON nesting too deep"
  | Nat.succ f, s =>
    match parseValue f s with
    | .error m => .error m
    | .ok (v, r) =>
      match skipWs r with
      | ',' :: r2 => (parseElems f r2).map (fun p => (v :: p.1, p.2))
      | ']' :: r2 => .ok ([v], r2)
      | _ => .error "Expected comma or closing bracket in JSON"

/-- One-or-more comma-separated object fields up to the closing brace. -/
def parseFields : Nat → List Char →
    Except String (List (List Char × Json) × List Char)
  | 0, _ => .error "JSON nesting too deep"
  | Nat.succ f, s =>
    match skipWs s with
    | '"' :: r =>
      match parseStringBody r with
      | .error m => .error m
      | .ok (k, r2) =>
        match skipWs r2 with
        | ':' :: r3 =>
          match parseValue f r3 with
          | .error m => .error m
          | .ok (v, r4) =>
            match skipWs r4 with
            | ',' :: r5 => (parseFields f r5).map (fun p => ((k, v) :: p.1, p.2))
            | '}' :: r5 => .ok ([(k, v)], r5)
            | _ => .error "Expected comma or closing brace in JSON"
        | _ => .error "Expected colon in JSON"
    | _ => .error "Expected string key in JSON"

end

/-- Model of `JSON.parse`: parse one value, allow trailing whitespace
only. -/
def parseJson (s : List Char) : Except String Json :=
  match parseValue (2 * s.length + 2) s with
  | .error m => .error m
  | .ok (v, r) =>
    match skipWs r with
    | [] => .ok v
    | _ => .error "Unexpected non-whitespace character after JSON"

/-- Index of the first occurrence of a character. -/
def firstIdxOf (c : Char) (s : List Char) : Option Nat := s.findIdx? (· = c)

/-- Index of the last occurrence of a character (JS `lastIndexOf`,
with `none` for the JS return value `-1`). -/
def lastIdxOf (c : Char) (s : List Char) : Option Nat :=
  match s.reverse.findIdx? (· = c) with
  | some k => some (s.length - 1 - k)
  | none => none

/-- Match of `\s*\n` at the start of `t` with the usual greedy
backtracking: consumes through the last newline of the maximal leading
whitespace run, `none` when that run contains no newline. -/
def wsThenNl (t : List Char) : Option (List Char) :=
  match lastIdxOf '\n' (t.takeWhile isJsonWs) with
  | some i => some (t.drop (i + 1))
  | none => none

/-- Model of `s.replace(/^```(?:json)?\s*\n/, '')`: the optional `json`
tag is tried greedily, falling back to the bare fence on failure. -/
def jsReplaceLeadFence (s : List Char) : List Char :=
  match s with
  | '`' :: '`' :: '`' :: t =>
    let withTag :=
      if t.take 4 = ['j', 's', 'o', 'n'] then wsThenNl (t.drop 4) else none
    match withTag with
    | some r => r
    | none =>
      match wsThenNl t with
      | some r => r
      | none => s
  | _ => s

/-- Does `\n```\s*$` match starting exactly at the head of `s`?  (The
first four characters are the newline and fence and everything after
them is whitespace.) -/
def isTrailFenceAt (s : List Char) : Bool :=
  decide (s.take 4 = ['\n', '`', '`', '`']) && (s.drop 4).all isJsonWs

/-- Model of `s.replace(/\n```\s*$/, '')`: remove from the leftmost
newline that begins a trailing fence to the end. -/
def jsReplaceTrailFence (s : List Char) : List Char :=
  match (List.range s.length).find? (fun i => isTrailFenceAt (s.drop i)) with
  | some i => s.take i
  | none => s

/-- Model of `s.match(/\{[\s\S]*\}/)`: the (greedy) span from the first
`\x7b` to the last `\x7d`, provided the latter comes after the former. -/
def jsonSpan (s : List Char) : Option (List Char) :=
  match firstIdxOf '{' s, lastIdxOf '}' s with
  | some i, some j => if i < j then some ((s.drop i).take (j - i + 1)) else none
  | _, _ => none

/-- The quote-closing repair applied to the brace-truncated text
(`gemini-client.js` lines 108-125): when the total quote count is odd
and the text before the last quote also holds an odd number of quotes,
everything after that quote is replaced by a single closing quote. -/
def quoteFix (truncated : List Char) : List Char :=
  let quoteCount := (truncated.filter (· = '"')).length
  if quoteCount % 2 ≠ 0 then
    match lastIdxOf '"' truncated with
    | some lastQuote =>
      if 0 < lastQuote ∧ truncated.get? (lastQuote - 1) ≠ some '\\' then
        let beforeQuote := truncated.take lastQuote
        let quotePairs := (beforeQuote.filter (· = '"')).length
        if quotePairs % 2 ≠ 0 then truncated.take (lastQuote + 1) ++ ['"']
        else truncated
      else truncated
    | none => truncated
  else truncated

/-- The cleaning stage of `parseJsonResponse`: trim, strip a leading
code fence, and take the brace span when one exists. -/
def cleanedText (response : List Char) : List Char :=
  let trimmed := trimChars response
  let unfenced :=
    if trimmed.take 3 = ['`', '`', '`'] then
      jsReplaceTrailFence (jsReplaceLeadFence trimmed)
    else trimmed
  match jsonSpan unfenced with
  | some sp => sp
  | none => unfenced

/-- Continuation of the model of `parseJsonResponse`: behaviour on the
already-cleaned text. -/
def parseCleaned (cleaned : List Char) : Except String Json × List String :=
  match parseJson cleaned with
  | .ok j => (.ok j, [])
  | .error origMsg =>
    let failMsg := "Invalid JSON response from model: " ++ origMsg
    let errLine :=
      "Failed to parse JSON response. First 500 chars: " ++
        String.mk (cleaned.take 500)
    match lastIdxOf '}' cleaned with
    | some lastBrace =>
      if 0 < lastBrace then
        let truncated := cleaned.take (lastBrace + 1)
        let fixed := quoteFix truncated
        match parseJson fixed with
        | .ok j => (.ok j, [])
        | .error _ =>
          (.error failMsg,
           ["Attempting to recover JSON by extracting object...", errLine])
      else (.error failMsg, [errLine])
    | none => (.error failMsg, [errLine])

/-- Model of `parseJsonResponse` from `gemini-client.js`: cleaning
(trim, fence strip, brace-span extraction) followed by direct parse,
one repair attempt, and the final throw.  Returns the JS return value /
thrown error, together with the `console` lines the function prints on
the failure path (`console.warn`, then `console.error` with the first
500 characters of the cleaned text). -/
def parseJsonResponse (response : List Char) : Except String Json × List String :=
  parseCleaned (cleanedText response)

/-! ## `invokeWithRetry` (`gemini-client.js` lines 59-78, non-mock path)

The mock-mode early return (`CONFIG.mockMode`) bypasses the collaborator
entirely and is outside every claim about attempts, so the model covers
the retry loop itself.  The external collaborator is a function from the
attempt number to that attempt's outcome. -/

/-- Outcome of a whole `invokeWithRetry` call: the returned text or the
thrown error message, the number of attempts performed, and the backoff
waits (in ms) performed between consecutive failed attempts. -/
structure InvokeRun where
  result : Except String String
  attempts : Nat
  waits : List Nat
deriving Repr

/-- The loop body of `invokeWithRetry`: `remaining` counts the loop
iterations left (`retries - attempt`).  When the loop exhausts its
budget the function throws
`Failed after ${retries} attempts: ${lastError.message}`.
(With `retries = 0` the JS code would fault reading `.message` of
`undefined`; that case is unreachable from the claims, which assume
`maxRetries >= 1`, and is rendered as the text `undefined`.) -/
def invokeGo (gen : Nat → Except String String) (retries : Nat) :
    Nat → Nat → Option String → InvokeRun
  | 0, attempt, lastErr =>
    ⟨.error ("Failed after " ++ toString retries ++ " attempts: " ++
        (match lastErr with | some e => e | none => "undefined")),
     attempt, []⟩
  | Nat.succ rem, attempt, _ =>
    match gen attempt with
    | .ok text => ⟨.ok text, attempt + 1, []⟩
    | .error e =>
      let r := invokeGo gen retries rem (attempt + 1) (some e)
      if attempt < retries - 1 then
        ⟨r.result, r.attempts, (2 ^ attempt * 1000) :: r.waits⟩
      else
        ⟨r.result, r.attempts, r.waits⟩

/-- Model of `invokeWithRetry(model, prompt, retries)`: the `for` loop
over attempts `0..retries-1` with exponential backoff
`Math.pow(2, attempt) * 1000` between consecutive failures. -/
def invokeWithRetry (gen : Nat → Except String String) (retries : Nat) : InvokeRun :=
  invokeGo gen retries retries 0 none

/-! ## `extractKeyMetrics` and the input data model (`validators.js`) -/

/-- A quantitative metric entry (the `MetricSchema` shape; the scalar
payload fields are numbers-or-strings in the schema and irrelevant to
the claims, so they are carried as `Json`). -/
structure Metric where
  name : String
  value : Option Json
  threshold : Option String
  thresholdRange : Option String
  pass : Option Bool
  actual : Option Json
  points : Option Int
  result : Option String
  weightedScore : Option Int

/-- A named metric group with its overall verdict. -/
structure MetricGroup where
  overall : String
  metrics : List Metric

/-- A risk-sensitivity signal. -/
structure RiskSignal where
  name : String
  pass : Bool

/-- The `riskSensitivityAlignment` block. -/
structure RiskGroup where
  overall : String
  signals : List RiskSignal

/-- The `quantitative` block: three metric groups plus the alignment
signals. -/
structure Quantitative where
  fundamentalResilience : MetricGroup
  asymmetricRiskReward : MetricGroup
  technicalConfirmation : MetricGroup
  riskSensitivityAlignment : RiskGroup

/-- The security identity block. -/
structure StockId where
  symbol : String
  name : String
  asOf : String
  overallResult : String

/-- An entry of `sis.stocks`. -/
structure SisStock where
  symbol : String
  name : String
  sisScore : Int
  metrics : List Metric

/-- The `sis` composite block. -/
structure Sis where
  overall : Int
  stocks : List SisStock

/-- An entry of `ssis.peers`. -/
structure SsisPeer where
  symbol : String
  name : String
  overallScore : Int
  metrics : List Metric

/-- The `ssis` composite block. -/
structure Ssis where
  overall : Int
  peers : List SsisPeer

/-- A qualitative criterion. -/
structure QualCriterion where
  name : String
  score : Int
  notes : Option String

/-- The `qualitative` block. -/
structure Qualitative where
  overallRating : Int
  criteria : List QualCriterion

/-- A peer row of `peerComparison`. -/
structure PeerEntry where
  name : String
  symbol : String
  metrics : List (String × String)

/-- The `peerComparison` block. -/
structure PeerComparison where
  baseSymbol : String
  peers : List PeerEntry

/-- A validated input document (the `StockInputSchema` shape; JS numbers
modelled as integers). -/
structure StockInput where
  stock : StockId
  quantitative : Quantitative
  sis : Sis
  ssis : Ssis
  qualitative : Qualitative
  peerComparison : PeerComparison

/-- Model of `(passed / total * 100).toFixed(1)`.  A zero total gives
`0/0 = NaN` and `NaN.toFixed(1) = "NaN"`; otherwise the exact rational
is rounded half-up to tenths (binary-double tie behaviour of `toFixed`
is not exercised by any claim). -/
def passRateString (passed total : Nat) : String :=
  if total = 0 then "NaN"
  else
    let tenths := (2000 * passed + total) / (2 * total)
    Nat.repr (tenths / 10) ++ "." ++ Nat.repr (tenths % 10)

/-- The summary object returned by `extractKeyMetrics`. -/
structure KeyMetrics where
  totalMetrics : Nat
  passedCount : Nat
  failedCount : Nat
  passRate : String
  sisScore : Int
  ssisScore : Int
  qualitativeRating : Int
  passedMetrics : List String
  failedMetrics : List String
deriving Repr, DecidableEq

/-- Model of `extractKeyMetrics` (`validators.js` lines 148-178):
concatenate the three quantitative groups' metric lists, collect the
names of entries whose `pass` flag is exactly `true` (resp. `false`),
and copy the composite scores through. -/
def extractKeyMetrics (data : StockInput) : KeyMetrics :=
  let allMetrics :=
    data.quantitative.fundamentalResilience.metrics ++
      data.quantitative.asymmetricRiskReward.metrics ++
      data.quantitative.technicalConfirmation.metrics
  let passedMetrics := (allMetrics.filter (fun m => m.pass == some true)).map Metric.name
  let failedMetrics := (allMetrics.filter (fun m => m.pass == some false)).map Metric.name
  ⟨allMetrics.length, passedMetrics.length, failedMetrics.length,
   passRateString passedMetrics.length allMetrics.length,
   data.sis.overall, data.ssis.overall, data.qualitative.overallRating,
   passedMetrics, failedMetrics⟩

/-! ## The LangGraph workflow (`langgraph-workflow.js`)

The graph is parameterised by the external collaborators exactly as the
nodes consume them: the input validator (`validate(data) -> {ok,
errors[]}` contract, schema semantics opaque), the key-metrics
extractor over the dynamically-typed input, and the settled outcome of
the `invokeWithRetry` promise.  The input type is abstract, mirroring
the dynamically-typed JS value flowing through `inputData`. -/

/-- The `{success, errors}` contract of the schema validator. -/
structure ValidationResult where
  success : Bool
  errors : List String
deriving Repr

/-- External collaborators of one workflow execution. -/
structure WConfig (α : Type) where
  validate : α → ValidationResult
  extractKM : α → KeyMetrics
  invokeOutcome : Except String (List Char)

/-- The `step` tags used by both workflow variants. -/
inductive WStep where
  | init
  | parallel_processing
  | extract_metrics
  | generate_analysis
  | validate_output
  | parse_response
  | enrich_report
  | error
  | complete
deriving Repr, DecidableEq

/-- The workflow channel state (`AnalysisState` in
`langgraph-workflow.js`). -/
structure WState (α : Type) where
  inputData : α
  validatedInput : Bool
  keyMetrics : Option KeyMetrics
  rawAnalysis : Option (List Char)
  parsedReport : Option Json
  validatedReport : Bool
  finalReport : Option Json
  errors : List String
  step : WStep

/-- The channel reducers of `buildGraph`: every channel but `errors`
keeps the node's value when it is non-null (`(x, y) => y ?? x`), and
`errors` concatenates (`(x, y) => [...(x || []), ...(y || [])]`).
Since every node spreads the old state, the scalar channels always
carry a returned value. -/
def mergeState {α : Type} (old ret : WState α) : WState α :=
  ⟨ret.inputData, ret.validatedInput,
   ret.keyMetrics.orElse (fun _ => old.keyMetrics),
   ret.rawAnalysis.orElse (fun _ => old.rawAnalysis),
   ret.parsedReport.orElse (fun _ => old.parsedReport),
   ret.validatedReport,
   ret.finalReport.orElse (fun _ => old.finalReport),
   old.errors ++ ret.errors,
   ret.step⟩

/-- The degraded report built by the error-handler node:
`{error: true, errors: state.errors, message: 'Analysis failed'}`. -/
def degradedReport (errs : List String) : Json :=
  .obj [("error".data, .bool true),
        ("errors".data, .arr (errs.map (fun e => .str e.data))),
        ("message".data, .str "Analysis failed".data)]

/-- Node 1, `validate_input`. -/
def validateInputNode {α : Type} (cfg : WConfig α) (s : WState α) : WState α :=
  let validation := cfg.validate s.inputData
  if !validation.success then
    { s with validatedInput := false,
             errors := s.errors ++ validation.errors,
             step := .error }
  else
    { s with validatedInput := true, step := .parallel_processing }

/-- Node 2, `parallel_processing`: `Promise.all` of the metric
extraction and the model invocation.  The extraction is total, so the
join fails exactly when the invocation fails, and then neither task's
value is written. -/
def parallelProcessingNode {α : Type} (cfg : WConfig α) (s : WState α) : WState α :=
  match cfg.invokeOutcome with
  | .ok text =>
    { s with keyMetrics := some (cfg.extractKM s.inputData),
             rawAnalysis := some text,
             step := .parse_response }
  | .error e =>
    { s with errors := s.errors ++ [e], step := .error }

/-- The TypeError message produced by `null.trim()` when
`parse_response` runs although `rawAnalysis` was never written
(engine-specific text, fixed here). -/
def nullTrimMsg : String := "Cannot read properties of null (reading 'trim')"

/-- Node 3, `parse_response`. -/
def parseResponseNode {α : Type} (s : WState α) : WState α :=
  match s.rawAnalysis with
  | none =>
    { s with errors := s.errors ++ ["Parse error: " ++ nullTrimMsg], step := .error }
  | some raw =>
    match (parseJsonResponse raw).1 with
    | .ok parsed => { s with parsedReport := some parsed, step := .enrich_report }
    | .error m =>
      { s with errors := s.errors ++ ["Parse error: " ++ m], step := .error }

/-- Node 4, `enrich_report` of the parallel (4-node) variant: per the
source comment it returns ONLY the parsed report, adding no metadata. -/
def enrichReportNode {α : Type} (s : WState α) : WState α :=
  { s with finalReport := s.parsedReport, step := .complete }

/-- Node 5, the `error` handler. -/
def errorNode {α : Type} (s : WState α) : WState α :=
  { s with finalReport := some (degradedReport s.errors), step := .complete }

/-- Node identifiers of the parallel-variant graph. -/
inductive NodeId where
  | validate_input
  | parallel_processing
  | parse_response
  | enrich_report
  | error
deriving Repr, DecidableEq

/-- Run one node's body on the current channel state. -/
def runGraphNode {α : Type} (cfg : WConfig α) : NodeId → WState α → WState α
  | .validate_input => validateInputNode cfg
  | .parallel_processing => parallelProcessingNode cfg
  | .parse_response => parseResponseNode
  | .enrich_report => enrichReportNode
  | .error => errorNode

/-- The edges of `buildGraph`: one conditional edge after
`validate_input`, every other edge static; `none` is `END`. -/
def nextNode {α : Type} : NodeId → WState α → Option NodeId
  | .validate_input, s =>
    some (if s.validatedInput then .parallel_processing else .error)
  | .parallel_processing, _ => some .parse_response
  | .parse_response, _ => some .enrich_report
  | .enrich_report, _ => none
  | .error, _ => none

/-- One engine transition: run the pending node, merge its return value
through the channel reducers, and pick the next node; `none` once the
graph has reached `END`. -/
def graphStep {α : Type} (cfg : WConfig α) :
    WState α × Option NodeId → Option (WState α × Option NodeId)
  | (_, none) => none
  | (s, some n) =>
    let s' := mergeState s (runGraphNode cfg n s)
    some (s', nextNode n s')

/-- Iterate the engine for at most `fuel` transitions. -/
def graphRun {α : Type} (cfg : WConfig α) :
    Nat → WState α × Option NodeId → WState α × Option NodeId
  | 0, c => c
  | Nat.succ f, c =>
    match graphStep cfg c with
    | none => c
    | some c' => graphRun cfg f c'

/-- The initial channel state built by `execute`. -/
def initialState {α : Type} (input : α) : WState α :=
  ⟨input, false, none, none, none, false, none, [], .init⟩

/-- The longest path of the graph has four nodes, so five transitions
always reach `END`. -/
def executeWorkflow {α : Type} (cfg : WConfig α) (input : α) : WState α :=
  (graphRun cfg 5 (initialState input, some .validate_input)).1

/-! ## Report enrichment of the sequential (7-node) variant
(`src/unnamed/part_001` lines 156-177) and of `stock-analyzer.js`. -/

/-- The key-metrics summary as the JSON value it denotes inside the
metadata block (`null` when the state channel was never written). -/
def kmJson : Option KeyMetrics → Json
  | none => .null
  | some km =>
    .obj [("totalMetrics".data, .num km.totalMetrics),
          ("passedCount".data, .num km.passedCount),
          ("failedCount".data, .num km.failedCount),
          ("passRate".data, .str km.passRate.data),
          ("sisScore".data, .num km.sisScore),
          ("ssisScore".data, .num km.ssisScore),
          ("qualitativeRating".data, .num km.qualitativeRating),
          ("passedMetrics".data, .arr (km.passedMetrics.map (fun s => .str s.data))),
          ("failedMetrics".data, .arr (km.failedMetrics.map (fun s => .str s.data)))]

/-- JS object spread `{...obj, k: v}`: an existing key is updated in
place, a new key is appended. -/
def upsertField (kvs : List (List Char × Json)) (k : List Char) (v : Json) :
    List (List Char × Json) :=
  if kvs.any (fun p => decide (p.1 = k)) then
    kvs.map (fun p => if p.1 = k then (p.1, v) else p)
  else kvs ++ [(k, v)]

/-- The metadata block built by the sequential variant's
`enrich_report` node (`analysisDate` is the injected wall-clock
timestamp; `modelUsed` is the resolved
`this.model.modelName || 'gemini-1.5-pro'` string). -/
def enrichMetadata (stock : StockId) (now : String)
    (keyMetrics : Option KeyMetrics) (modelUsed : String) : Json :=
  .obj [("stockSymbol".data, .str stock.symbol.data),
        ("stockName".data, .str stock.name.data),
        ("analysisDate".data, .str now.data),
        ("asOfDate".data, .str stock.asOf.data),
        ("keyMetrics".data, kmJson keyMetrics),
        ("modelUsed".data, .str modelUsed.data),
        ("version".data, .str "1.0.0".data)]

/-- The enriched report `{...state.parsedReport, metadata: {...}}` of
the sequential variant (also step 6 of `stock-analyzer.js`).  Spreading
a `null` or primitive parsed report contributes no fields. -/
def enrichedReportSeq (parsedReport : Option Json) (stock : StockId)
    (now : String) (keyMetrics : Option KeyMetrics) (modelUsed : String) : Json :=
  let metadata := enrichMetadata stock now keyMetrics modelUsed
  match parsedReport with
  | some (.obj kvs) => .obj (upsertField kvs "metadata".data metadata)
  | _ => .obj [("metadata".data, metadata)]

/-! ## `batchAnalyze` (`stock-analyzer.js` lines 111-140) -/

/-- One batch item's outcome: `{success: true, data}` or
`{success: false, error, symbol}`. -/
inductive BatchResult where
  | success (data : Json)
  | failure (error : String) (symbol : String)

/-- `stockDataArray[i]?.stock?.symbol || 'Unknown'` (the `||` also
replaces an empty-string symbol). -/
def symbolHint (sym : Option String) : String :=
  match sym with
  | some s => if s = "" then "Unknown" else s
  | none => "Unknown"

/-- Model of `batchAnalyze`: a sequential loop whose body runs
`analyze` on the next item inside a try/catch and pushes one result per
item. -/
def batchAnalyze {α : Type} (analyze : α → Except String Json)
    (symbolOf : α → Option String) : List α → List BatchResult
  | [] => []
  | x :: xs =>
    (match analyze x with
     | .ok r => .success r
     | .error e => .failure e (symbolHint (symbolOf x))) ::
      batchAnalyze analyze symbolOf xs

/-! ## Concrete fixtures used by the claim theorems and witnesses -/

/-- A metric entry with only a name, a numeric value and a pass flag. -/
def mkMetric (name : String) (pass : Option Bool) : Metric :=
  ⟨name, some (.num 1), none, none, pass, none, none, none, none⟩

/-- A security identity fixture. -/
def sampleStock : StockId := ⟨"TBD", "TBD Corp", "2024-01-01", "Pass"⟩

/-- A metric group with no entries. -/
def emptyGroup : MetricGroup := ⟨"Pass", []⟩

/-- An input whose three quantitative metric groups are all empty. -/
def emptyMetricsInput : StockInput :=
  ⟨sampleStock, ⟨emptyGroup, emptyGroup, emptyGroup, ⟨"Pass", []⟩⟩,
   ⟨80, []⟩, ⟨60, []⟩, ⟨4, []⟩, ⟨"TBD", []⟩⟩

/-- An input with ten metric entries, six passing and four failing. -/
def tenMetricsInput : StockInput :=
  ⟨sampleStock,
   ⟨⟨"Pass", [mkMetric "m1" (some true), mkMetric "m2" (some true),
              mkMetric "m3" (some true), mkMetric "m4" (some false)]⟩,
    ⟨"Pass", [mkMetric "m5" (some true), mkMetric "m6" (some false),
              mkMetric "m7" (some false)]⟩,
    ⟨"Pass", [mkMetric "m8" (some true), mkMetric "m9" (some true),
              mkMetric "m10" (some false)]⟩,
    ⟨"Pass", []⟩⟩,
   ⟨80, []⟩, ⟨60, []⟩, ⟨4, []⟩, ⟨"TBD", []⟩⟩

/-- A validator over raw JSON documents that rejects a document whose
`stock` block lacks a `name`, reporting the Zod-style path message. -/
def missingNameValidator (d : Json) : ValidationResult :=
  match jLookup "stock".data d with
  | some st =>
    match jLookup "name".data st with
    | some _ => ⟨true, []⟩
    | none => ⟨false, ["stock.name: Required"]⟩
  | none => ⟨false, ["stock: Required"]⟩

/-- A raw input document missing `stock.name`. -/
def inputMissingName : Json :=
  .obj [("stock".data, .obj [("symbol".data, .str "TBD".data)])]

/-- Workflow collaborators for a run whose model invocation exhausts its
retries (the message `invokeWithRetry` throws after three failures). -/
def cfgInvokeFailure : WConfig StockInput :=
  ⟨fun _ => ⟨true, []⟩, extractKeyMetrics,
   .error "Failed after 3 attempts: boom"⟩

/-- The model response text of the successful fixture run. -/
def okResponseText : String :=
  "\x7b\"overallScore\":70,\"recommendation\":\"Watchlist\"\x7d"

/-- The parsed report of the successful fixture run. -/
def okParsedReport : Json :=
  .obj [("overallScore".data, .num 70),
        ("recommendation".data, .str "Watchlist".data)]

/-- Workflow collaborators for a fully successful run. -/
def cfgSuccess : WConfig StockInput :=
  ⟨fun _ => ⟨true, []⟩, extractKeyMetrics, .ok okResponseText.data⟩

/-- Markdown code-fence wrapping of a text, with or without the `json`
language tag. -/
def fenceWrap (tag : Bool) (s : List Char) : List Char :=
  '`' :: '`' :: '`' ::
    ((if tag then ['j', 's', 'o', 'n'] else []) ++
      '\n' :: (s ++ ['\n', '`', '`', '`']))

/-- C2's backoff sentence as stated: with the backoff base configured to
`base`, an all-failing run waits `base * 2^attempt` between consecutive
failed attempts.  The code has no base configuration at all (the factor
is the literal `1000`), so this proposition only holds for
`base = 1000`. -/
def claimedBackoffWith (base : Nat) : Prop :=
  ∀ (gen : Nat → Except String String) (retries : Nat) (err : Nat → String),
    1 ≤ retries → (∀ i, i < retries → gen i = .error (err i)) →
    (invokeWithRetry gen retries).waits =
      (List.range (retries - 1)).map (fun i => base * 2 ^ i)

/-- The fields of a JSON object (empty for non-objects). -/
def objFields : Json → List (List Char × Json)
  | .obj kvs => kvs
  | _ => []

/-- The first claim's failing response text (no closing quote or
brace). -/
def c5inputBad : String := "\x7b\"a\":\"x\",\"b\":\"unterminated"

/-- The second claim's response text with trailing garbage. -/
def c5inputExtra : String := "\x7b\"a\":\"x\",\"b\":\"y\"\x7dEXTRA"

/-- The brace span of `c5inputExtra`. -/
def c5span : String := "\x7b\"a\":\"x\",\"b\":\"y\"\x7d"

/-- A 40-character response on which every parse and repair attempt
fails (longer than any input excerpt a JSON engine error message could
carry). -/
def c7input : String := "%%%%%%%%%%%%%%%%%%%%%%%%%%%%%%%%%%%%%%%%"

/-- The concatenation of the three quantitative groups' metric lists in
the order `extractKeyMetrics` builds it. -/
def allQuantMetrics (data : StockInput) : List Metric :=
  data.quantitative.fundamentalResilience.metrics ++
    data.quantitative.asymmetricRiskReward.metrics ++
    data.quantitative.technicalConfirmation.metrics

/-- Workflow collaborators using the missing-name validator over raw
JSON documents (the invocation outcome is irrelevant on the failure
path). -/
def cfgMissingName : WConfig Json :=
  ⟨missingNameValidator, fun _ => extractKeyMetrics emptyMetricsInput, .ok []⟩

/-- A batch `analyze` stub over item indices: item 1 is invalid and
throws, every other item succeeds. -/
def c9analyze (n : Nat) : Except String Json :=
  if n = 1 then .error "Input validation failed:\nstock.name: Required"
  else .ok (.obj [])

/-- Symbol hints for the batch fixture. -/
def c9symbol (n : Nat) : Option String := some ("S" ++ toString n)

/-- Side condition for number round-trips: a serialized number must not
be followed immediately by another digit. -/
def numGuard (j : Json) (rest : List Char) : Prop :=
  match j with
  | .num _ => ∀ c, rest.head? = some c → c.isDigit = false
  | _ => True

/-- Does the first list start with the second? -/
def startsWithSeq : List Char → List Char → Bool
  | _, [] => true
  | [], _ :: _ => false
  | a :: t, b :: u => a = b && startsWithSeq t u

/-- Does `hay` contain `needle` as a contiguous subsequence? -/
def containsSeq (needle : List Char) : List Char → Bool
  | [] => needle.isEmpty
  | c :: t => startsWithSeq (c :: t) needle || containsSeq needle t

/-! ## Helper lemmas -/

/-- `batchAnalyze` is the elementwise image of its item handler. -/
theorem batchAnalyze_eq_map {α : Type} (analyze : α → Except String Json)
    (symbolOf : α → Option String) (inputs : List α) :
    batchAnalyze analyze symbolOf inputs =
      inputs.map (fun x =>
        match analyze x with
        | .ok r => .success r
        | .error e => .failure e (symbolHint (symbolOf x))) := by
  induction inputs with
  | nil => rfl
  | cons x xs ih => simp only [batchAnalyze, ih, List.map_cons]

/-- When every attempt from `attempt` on fails, the retry loop performs
all remaining attempts, throws with the last error's message, and waits
`2^i * 1000` after each non-final failed attempt. -/
theorem invokeGo_allfail (gen : Nat → Except String String) (retries : Nat)
    (err : Nat → String) :
    ∀ (rem attempt : Nat) (prev : Option String),
    attempt + rem = retries → 1 ≤ rem →
    (∀ i, attempt ≤ i → i < retries → gen i = .error (err i)) →
    invokeGo gen retries rem attempt prev =
      ⟨.error ("Failed after " ++ toString retries ++ " attempts: " ++ err (retries - 1)),
       retries, (List.range' attempt (rem - 1)).map (fun i => 2 ^ i * 1000)⟩ := by
  intro rem
  induction rem with
  | zero => omega
  | succ rem ih =>
    intro attempt prev hsum _ hfail
    have hg : gen attempt = .error (err attempt) := hfail attempt le_rfl (by omega)
    cases rem with
    | zero =>
      have hlt : ¬ attempt < retries - 1 := by omega
      conv_lhs => rw [invokeGo]
      rw [hg]
      simp only [hlt, if_false, invokeGo]
      have ha : attempt + 1 = retries := by omega
      have ha2 : attempt = retries - 1 := by omega
      rw [ha, ha2]
      simp
    | succ rem2 =>
      have hlt : attempt < retries - 1 := by omega
      have hrec := ih (attempt + 1) (some (err attempt)) (by omega) (by omega)
        (fun i h1 h2 => hfail i (by omega) h2)
      conv_lhs => rw [invokeGo]
      rw [hg]
      simp only [hlt, if_true]
      rw [hrec]
      simp only [Nat.succ_sub_one]
      rw [List.range'_succ]
      simp

/-- When attempts before `k` fail and attempt `k` succeeds, the retry
loop returns attempt `k`'s text after `k + 1` attempts, having waited
after each failed attempt. -/
theorem invokeGo_success (gen : Nat → Except String String) (retries : Nat)
    (err : Nat → String) (k : Nat) (t : String) :
    ∀ (rem attempt : Nat) (prev : Option String),
    attempt + rem = retries → attempt ≤ k → k < retries →
    (∀ i, attempt ≤ i → i < k → gen i = .error (err i)) →
    gen k = .ok t →
    invokeGo gen retries rem attempt prev =
      ⟨.ok t, k + 1, (List.range' attempt (k - attempt)).map (fun i => 2 ^ i * 1000)⟩ := by
  intro rem
  induction rem with
  | zero => omega
  | succ rem ih =>
    intro attempt prev hsum hak hk hfail hok
    by_cases hek : attempt = k
    · subst hek
      conv_lhs => rw [invokeGo]
      rw [hok]
      simp
    · have hg : gen attempt = .error (err attempt) := hfail attempt le_rfl (by omega)
      have hlt : attempt < retries - 1 := by omega
      have hrec := ih (attempt + 1) (some (err attempt)) (by omega) (by omega) hk
        (fun i h1 h2 => hfail i (by omega) h2) hok
      conv_lhs => rw [invokeGo]
      rw [hg]
      simp only [hlt, if_true]
      rw [hrec]
      have hka : k - attempt = (k - (attempt + 1)) + 1 := by omega
      rw [hka, List.range'_succ]
      simp

/-- Every metric entry counts toward exactly one of passed (`pass` is
`true`), failed (`pass` is `false`), or unset. -/
theorem metric_count_partition (l : List Metric) :
    l.countP (fun m => m.pass == some true) +
      l.countP (fun m => m.pass == some false) +
      l.countP (fun m => m.pass == none) = l.length := by
  induction l with
  | nil => rfl
  | cons m t ih =>
    simp only [List.countP_cons, List.length_cons]
    rcases hm : m.pass with _ | b
    · simp [hm]; omega
    · cases b <;> simp [hm] <;> omega

/-- `assocFind` of the upserted key returns the upserted value. -/
theorem assocFind_upsertField (kvs : List (List Char × Json)) (k : List Char) (v : Json) :
    assocFind k (upsertField kvs k v) = some v := by
  unfold upsertField
  by_cases h : kvs.any (fun q => decide (q.1 = k))
  · rw [if_pos h]
    induction kvs with
    | nil => simp at h
    | cons q t ih =>
      obtain ⟨qk, qv⟩ := q
      by_cases hq : qk = k
      · subst hq
        have hhead : (if ((qk, qv) : List Char × Json).1 = qk
            then (((qk, qv) : List Char × Json).1, v) else (qk, qv)) = (qk, v) := by simp
        rw [List.map_cons, hhead]
        simp [assocFind]
      · simp only [List.any_cons, decide_eq_true_eq, hq, decide_False,
          Bool.false_or] at h
        have hhead : (if ((qk, qv) : List Char × Json).1 = k
            then (((qk, qv) : List Char × Json).1, v) else (qk, qv)) = (qk, qv) := by
          simp [hq]
        rw [List.map_cons, hhead]
        simp only [assocFind, hq, if_false]
        exact ih h
  · rw [if_neg h]
    simp only [List.any_eq_true, decide_eq_true_eq, not_exists, not_and] at h
    induction kvs with
    | nil => simp [assocFind]
    | cons q t ih =>
      obtain ⟨qk, qv⟩ := q
      have hq : qk ≠ k := h (qk, qv) (by simp)
      simp only [List.cons_append, assocFind, hq, if_false]
      exact ih (fun p hp => h p (by simp [hp]))

/-- Upserting one key keeps every differently-keyed binding. -/
theorem mem_upsertField (kvs : List (List Char × Json)) (k : List Char) (v : Json)
    (p : List Char × Json) (hp : p ∈ kvs) (hk : p.1 ≠ k) :
    p ∈ upsertField kvs k v := by
  unfold upsertField
  by_cases h : kvs.any (fun q => decide (q.1 = k))
  · rw [if_pos h]
    exact List.mem_map.mpr ⟨p, hp, by simp [hk]⟩
  · rw [if_neg h]
    exact List.mem_append_left _ hp

/-! ## Claim theorems -/

/-- C2 (counterexample): the claim asserts the backoff base is
configurable; the code's backoff factor is the literal `1000`, so the
claimed wait schedule is false for any other base, e.g. `500`, already
for an always-failing run with `maxRetries = 2`. -/
theorem claim_C2_counterexample : ¬ claimedBackoffWith 500 := by
  intro h
  have h2 := h (fun _ => .error "boom") 2 (fun _ => "boom") (by omega) (fun i _ => rfl)
  have h3 : (invokeWithRetry (fun _ => .error "boom") 2).waits = [1000] := rfl
  rw [h3] at h2
  rw [show List.map (fun i => 500 * 2 ^ i) (List.range 1) = [500] from rfl] at h2
  exact absurd h2 (by decide)

/-- C2 (amended): for `maxRetries ≥ 1`, if the collaborator fails on
every attempt, `invokeWithRetry` performs exactly `maxRetries` attempts
and throws an error carrying the attempt count and the last underlying
error's message; if some attempt succeeds it returns that attempt's raw
text with no further attempts; between consecutive failed attempts it
waits `2^attempt * 1000` time units, the base `1000` being a fixed
constant rather than configurable. -/
theorem claim_C2_amended (gen : Nat → Except String String) (retries : Nat)
    (err : Nat → String) (hr : 1 ≤ retries) :
    ((∀ i, i < retries → gen i = .error (err i)) →
      invokeWithRetry gen retries =
        ⟨.error ("Failed after " ++ toString retries ++ " attempts: " ++ err (retries - 1)),
         retries, (List.range (retries - 1)).map (fun i => 2 ^ i * 1000)⟩) ∧
    (∀ k t, k < retries → (∀ i, i < k → gen i = .error (err i)) → gen k = .ok t →
      invokeWithRetry gen retries =
        ⟨.ok t, k + 1, (List.range k).map (fun i => 2 ^ i * 1000)⟩) := by
  constructor
  · intro hfail
    rw [invokeWithRetry, invokeGo_allfail gen retries err retries 0 none (by omega) hr
      (fun i _ h2 => hfail i h2)]
    rw [List.range_eq_range']
  · intro k t hk hfail hok
    rw [invokeWithRetry, invokeGo_success gen retries err k t retries 0 none (by omega)
      (by omega) hk (fun i _ h2 => hfail i h2) hok]
    simp [List.range_eq_range']

/-- C2 (witness): an always-failing stub with `maxRetries = 3` makes
exactly three attempts, throws with the count and last message, and
waits 1000 then 2000; a stub failing twice then succeeding returns the
text after three attempts. -/
theorem claim_C2_witness :
    invokeWithRetry (fun _ => .error "boom") 3 =
      ⟨.error "Failed after 3 attempts: boom", 3, [1000, 2000]⟩ ∧
    invokeWithRetry (fun i => if i < 2 then .error "x" else .ok "yay") 3 =
      ⟨.ok "yay", 3, [1000, 2000]⟩ := by
  constructor
  · have h := (claim_C2_amended (fun _ => .error "boom") 3 (fun _ => "boom")
      (by omega)).1 (fun i _ => rfl)
    simpa using h
  · have h := (claim_C2_amended (fun i => if i < 2 then .error "x" else .ok "yay") 3
      (fun _ => "x") (by omega)).2 2 "yay" (by omega)
      (fun i hi => by simp [hi]) (by simp)
    simpa using h

/-- C3: whenever the validator rejects the input with a non-empty error
list, the workflow reaches the terminal `complete` step with the
degraded report `{error: true, errors, message: "Analysis failed"}`
whose `errors` field carries the validator's list; nothing is thrown
past the workflow boundary (the run is a total function into a final
state). -/
theorem claim_C3 {α : Type} (cfg : WConfig α) (input : α) (es : List String)
    (hval : cfg.validate input = ⟨false, es⟩) (hne : es ≠ []) :
    (executeWorkflow cfg input).step = .complete ∧
    (executeWorkflow cfg input).finalReport = some (degradedReport es) ∧
    jLookup "error".data (degradedReport es) = some (.bool true) ∧
    jLookup "errors".data (degradedReport es) =
      some (.arr (es.map (fun e => .str e.data))) ∧
    es.map (fun e => Json.str e.data) ≠ [] ∧
    jLookup "message".data (degradedReport es) =
      some (.str "Analysis failed".data) := by
  have hrun : executeWorkflow cfg input =
      ⟨input, false, none, none, none, false, some (degradedReport es),
       es ++ es, .complete⟩ := by
    simp [executeWorkflow, graphRun, graphStep, runGraphNode, validateInputNode,
      hval, mergeState, nextNode, errorNode, initialState, Option.orElse]
  refine ⟨by rw [hrun], by rw [hrun], rfl, rfl, ?_, rfl⟩
  intro h
  exact hne (List.map_eq_nil_iff.mp h)

/-- C3 (witness): a raw document missing `stock.name` is rejected by
the validator and the workflow completes with the degraded report. -/
theorem claim_C3_witness :
    cfgMissingName.validate inputMissingName = ⟨false, ["stock.name: Required"]⟩ ∧
    (executeWorkflow cfgMissingName inputMissingName).step = .complete ∧
    (executeWorkflow cfgMissingName inputMissingName).finalReport =
      some (degradedReport ["stock.name: Required"]) := by
  have h := claim_C3 cfgMissingName inputMissingName ["stock.name: Required"] rfl
    (List.cons_ne_nil _ _)
  exact ⟨rfl, h.1, h.2.1⟩

/-- C4: `extractKeyMetrics` concatenates the three quantitative groups
in source order, counts entries with `pass` exactly `true` resp.
exactly `false` (unset flags count toward neither), renders the pass
rate as `passed/total*100` rounded to one decimal (six of ten passing
gives "60.0"), and copies the `sis`, `ssis` and qualitative composite
scores through verbatim. -/
theorem claim_C4 (data : StockInput) :
    (extractKeyMetrics data).totalMetrics = (allQuantMetrics data).length ∧
    (extractKeyMetrics data).passedCount =
      (allQuantMetrics data).countP (fun m => m.pass == some true) ∧
    (extractKeyMetrics data).failedCount =
      (allQuantMetrics data).countP (fun m => m.pass == some false) ∧
    (extractKeyMetrics data).passedCount + (extractKeyMetrics data).failedCount +
      (allQuantMetrics data).countP (fun m => m.pass == none) =
      (extractKeyMetrics data).totalMetrics ∧
    (extractKeyMetrics data).passRate =
      passRateString ((allQuantMetrics data).countP (fun m => m.pass == some true))
        (allQuantMetrics data).length ∧
    (extractKeyMetrics data).sisScore = data.sis.overall ∧
    (extractKeyMetrics data).ssisScore = data.ssis.overall ∧
    (extractKeyMetrics data).qualitativeRating = data.qualitative.overallRating ∧
    (extractKeyMetrics tenMetricsInput).passRate = "60.0" := by
  have hp : ((allQuantMetrics data).filter (fun m => m.pass == some true)).length =
      (allQuantMetrics data).countP (fun m => m.pass == some true) :=
    (List.countP_eq_length_filter _ _).symm
  have hf : ((allQuantMetrics data).filter (fun m => m.pass == some false)).length =
      (allQuantMetrics data).countP (fun m => m.pass == some false) :=
    (List.countP_eq_length_filter _ _).symm
  simp only [allQuantMetrics] at hp hf
  refine ⟨rfl, ?_, ?_, ?_, ?_, rfl, rfl, rfl, rfl⟩
  · simp only [extractKeyMetrics, allQuantMetrics, List.length_map]; exact hp
  · simp only [extractKeyMetrics, allQuantMetrics, List.length_map]; exact hf
  · simp only [extractKeyMetrics, allQuantMetrics, List.length_map]
    rw [hp, hf]
    exact metric_count_partition _
  · simp only [extractKeyMetrics, allQuantMetrics, List.length_map]
    rw [hp]

/-- C9: batch processing returns exactly one result per input, aligned
by index, each marked success with its data or failure with the thrown
message and the symbol hint; each result is a function of its own input
alone, so one item's failure cannot abort or affect later items. -/
theorem claim_C9 {α : Type} (analyze : α → Except String Json)
    (symbolOf : α → Option String) (inputs : List α) :
    (batchAnalyze analyze symbolOf inputs).length = inputs.length ∧
    ∀ i (hi : i < inputs.length),
      (batchAnalyze analyze symbolOf inputs)[i]? =
        some (match analyze (inputs.get ⟨i, hi⟩) with
          | .ok r => .success r
          | .error e => .failure e (symbolHint (symbolOf (inputs.get ⟨i, hi⟩)))) := by
  rw [batchAnalyze_eq_map]
  refine ⟨List.length_map _ _, ?_⟩
  intro i hi
  rw [List.getElem?_map, List.getElem?_eq_getElem hi]
  simp [List.get_eq_getElem]

/-- C9 (witness): with three items of which item 2 (index 1) is
invalid, the batch yields three results, items 1 and 3 successes and
item 2 a failure with its symbol hint. -/
theorem claim_C9_witness :
    (batchAnalyze c9analyze c9symbol [0, 1, 2]).length = 3 ∧
    (batchAnalyze c9analyze c9symbol [0, 1, 2])[0]? =
      some (.success (.obj [])) ∧
    (batchAnalyze c9analyze c9symbol [0, 1, 2])[1]? =
      some (.failure "Input validation failed:\nstock.name: Required" "S1") ∧
    (batchAnalyze c9analyze c9symbol [0, 1, 2])[2]? =
      some (.success (.obj [])) := by
  have h := claim_C9 c9analyze c9symbol [0, 1, 2]
  refine ⟨h.1, ?_, ?_, ?_⟩
  · simpa using h.2 0 (by decide)
  · simpa [c9analyze, c9symbol, symbolHint] using h.2 1 (by decide)
  · simpa using h.2 2 (by decide)

/-- C5: the response parser fails with a ParseError on
`{"a":"x","b":"unterminated` (no closing quote or brace, so the repair
step cannot apply), and succeeds on `{"a":"x","b":"y"}EXTRA` by taking
the substring from the first brace to the last brace and parsing it to
the object with `a = "x"` and `b = "y"`. -/
theorem claim_C5 :
    (parseJsonResponse c5inputBad.data).1 =
      .error "Invalid JSON response from model: Unterminated string in JSON" ∧
    cleanedText c5inputExtra.data = c5span.data ∧
    (parseJsonResponse c5inputExtra.data).1 =
      .ok (.obj [("a".data, .str "x".data), ("b".data, .str "y".data)]) := by
  refine ⟨rfl, rfl, rfl⟩

/-- C6 (code evaluated at the failing input): with a passing validator
and a failing model invocation, the `parallel_processing` node sets
`step` to `error`, but the unconditional
`parallel_processing → parse_response → enrich_report` edges bypass the
error handler, and the run terminates at the terminal `complete` step
with `finalReport` still null — contradicting the claimed invariant
that `finalReport` is non-null iff `step` is terminal. -/
theorem claim_C6 :
    (graphRun cfgInvokeFailure 2
      (initialState emptyMetricsInput, some .validate_input)).1.step = .error ∧
    (executeWorkflow cfgInvokeFailure emptyMetricsInput).step = .complete ∧
    (executeWorkflow cfgInvokeFailure emptyMetricsInput).finalReport = none := by
  refine ⟨rfl, rfl, rfl⟩

/-- C10: on an input whose three quantitative metric groups are all
empty, `extractKeyMetrics` returns without failing, with zero totals
and the pass rate equal to the string "NaN" (the `0/0` division is
unguarded and `NaN.toFixed(1)` renders as "NaN"). -/
theorem claim_C10 :
    extractKeyMetrics emptyMetricsInput = ⟨0, 0, 0, "NaN", 80, 60, 4, [], []⟩ ∧
    (extractKeyMetrics emptyMetricsInput).passRate = "NaN" := by
  refine ⟨rfl, rfl⟩

/-- C1 (counterexample): a fully successful execution of the parallel
4-node workflow reaches the enrich step and completes with
`finalReport` equal to the parsed report verbatim, with no `metadata`
block added — the claim's required metadata block is absent. -/
theorem claim_C1_counterexample :
    executeWorkflow cfgSuccess emptyMetricsInput =
      ⟨emptyMetricsInput, true, some (extractKeyMetrics emptyMetricsInput),
       some okResponseText.data, some okParsedReport, false, some okParsedReport,
       [], .complete⟩ ∧
    jLookup "metadata".data okParsedReport = none := by
  constructor <;> rfl

/-- C1 (amended): the sequential 7-node variant's enrich step produces
the parsed report with an added `metadata` block carrying the security
symbol, name and asOf date copied from the input, the injected
timestamp, the key-metrics summary and the model identity/version,
dropping or renaming no parsedReport field; the parallel 4-node
variant's `enrich_report` instead sets `finalReport` to `parsedReport`
unchanged, adding no metadata. -/
theorem claim_C1_amended (kvs : List (List Char × Json)) (stock : StockId)
    (now : String) (km : Option KeyMetrics) (modelUsed : String) :
    (∀ k v, (k, v) ∈ kvs → k ≠ "metadata".data →
      (k, v) ∈ objFields (enrichedReportSeq (some (.obj kvs)) stock now km modelUsed)) ∧
    jLookup "metadata".data (enrichedReportSeq (some (.obj kvs)) stock now km modelUsed) =
      some (enrichMetadata stock now km modelUsed) ∧
    jLookup "stockSymbol".data (enrichMetadata stock now km modelUsed) =
      some (.str stock.symbol.data) ∧
    jLookup "stockName".data (enrichMetadata stock now km modelUsed) =
      some (.str stock.name.data) ∧
    jLookup "asOfDate".data (enrichMetadata stock now km modelUsed) =
      some (.str stock.asOf.data) ∧
    jLookup "analysisDate".data (enrichMetadata stock now km modelUsed) =
      some (.str now.data) ∧
    jLookup "keyMetrics".data (enrichMetadata stock now km modelUsed) =
      some (kmJson km) ∧
    jLookup "modelUsed".data (enrichMetadata stock now km modelUsed) =
      some (.str modelUsed.data) ∧
    jLookup "version".data (enrichMetadata stock now km modelUsed) =
      some (.str "1.0.0".data) ∧
    (∀ (β : Type) (s : WState β),
      (enrichReportNode s).finalReport = s.parsedReport ∧
      (enrichReportNode s).step = .complete) := by
  refine ⟨?_, ?_, rfl, rfl, rfl, rfl, rfl, rfl, rfl, fun β s => ⟨rfl, rfl⟩⟩
  · intro k v hm hk
    exact mem_upsertField kvs "metadata".data (enrichMetadata stock now km modelUsed)
      (k, v) hm hk
  · exact assocFind_upsertField kvs "metadata".data (enrichMetadata stock now km modelUsed)

/-- C1 (witness): enriching a one-field parsed report adds the metadata
block and keeps the original field. -/
theorem claim_C1_witness :
    jLookup "metadata".data
      (enrichedReportSeq (some (.obj [("overallScore".data, Json.num 70)]))
        sampleStock "2024-01-02T00:00:00.000Z"
        (some (extractKeyMetrics emptyMetricsInput)) "gemini-1.5-pro") =
      some (enrichMetadata sampleStock "2024-01-02T00:00:00.000Z"
        (some (extractKeyMetrics emptyMetricsInput)) "gemini-1.5-pro") ∧
    ("overallScore".data, Json.num 70) ∈ objFields
      (enrichedReportSeq (some (.obj [("overallScore".data, Json.num 70)]))
        sampleStock "2024-01-02T00:00:00.000Z"
        (some (extractKeyMetrics emptyMetricsInput)) "gemini-1.5-pro") := by
  have h := claim_C1_amended [("overallScore".data, Json.num 70)] sampleStock
    "2024-01-02T00:00:00.000Z" (some (extractKeyMetrics emptyMetricsInput))
    "gemini-1.5-pro"
  exact ⟨h.2.1, h.1 "overallScore".data (Json.num 70) (by simp) (by decide)⟩

/-- C7 (counterexample): on a 40-character response on which all
attempts fail, the thrown error's message does not contain the first
500 characters of the cleaned text (the excerpt goes to the console
log, not into the error). -/
theorem claim_C7_counterexample :
    (parseJsonResponse c7input.data).1 =
      .error "Invalid JSON response from model: Unexpected token in JSON" ∧
    containsSeq ((cleanedText c7input.data).take 500)
      "Invalid JSON response from model: Unexpected token in JSON".data = false := by
  constructor <;> rfl

/-- C7 (amended): whenever all parsing and repair attempts fail, the
thrown ParseError's message is the fixed prefix followed by the
original parse error message (so it includes that message), while the
first 500 characters of the cleaned text are only written to the error
log. -/
theorem claim_C7_amended (response : List Char) (m : String) (log : List String)
    (h : parseJsonResponse response = (.error m, log)) :
    ∃ origMsg, parseJson (cleanedText response) = .error origMsg ∧
      m = "Invalid JSON response from model: " ++ origMsg ∧
      ("Failed to parse JSON response. First 500 chars: " ++
        String.mk ((cleanedText response).take 500)) ∈ log := by
  unfold parseJsonResponse parseCleaned at h
  cases hp : parseJson (cleanedText response) with
  | ok j => rw [hp] at h; simp at h
  | error orig =>
    rw [hp] at h
    dsimp only at h
    refine ⟨orig, rfl, ?_⟩
    cases hl : lastIdxOf '}' (cleanedText response) with
    | none =>
      rw [hl] at h
      dsimp only at h
      simp only [Prod.mk.injEq, Except.error.injEq] at h
      obtain ⟨hm, hlog⟩ := h
      subst hm; subst hlog
      simp
    | some lb =>
      rw [hl] at h
      dsimp only at h
      by_cases hlb : 0 < lb
      · rw [if_pos hlb] at h
        cases hq : parseJson (quoteFix ((cleanedText response).take (lb + 1))) with
        | ok j2 => rw [hq] at h; simp at h
        | error e2 =>
          rw [hq] at h
          dsimp only at h
          simp only [Prod.mk.injEq, Except.error.injEq] at h
          obtain ⟨hm, hlog⟩ := h
          subst hm; subst hlog
          simp
      · rw [if_neg hlb] at h
        simp only [Prod.mk.injEq, Except.error.injEq] at h
        obtain ⟨hm, hlog⟩ := h
        subst hm; subst hlog
        simp

/-- C7 (witness): the amended statement instantiated at the concrete
failing response. -/
theorem claim_C7_witness :
    ∃ origMsg, parseJson (cleanedText c7input.data) = .error origMsg ∧
      "Invalid JSON response from model: Unexpected token in JSON" =
        "Invalid JSON response from model: " ++ origMsg ∧
      ("Failed to parse JSON response. First 500 chars: " ++
        String.mk ((cleanedText c7input.data).take 500)) ∈
        (parseJsonResponse c7input.data).2 := by
  exact claim_C7_amended c7input.data
    "Invalid JSON response from model: Unexpected token in JSON"
    (parseJsonResponse c7input.data).2 (by rfl)

/-! ## Serializer/parser round-trip lemmas (claim C8) -/

theorem hexVal_hexDigitChar (n : Nat) (h : n < 16) :
    hexVal (hexDigitChar n) = some n := by
  interval_cases n <;> decide

theorem escape_roundtrip (s : List Char) : ∀ (rest : List Char),
    parseStringBody (escapeString s ++ '"' :: rest) = .ok (s, rest) := by
  induction s with
  | nil =>
    intro rest
    show parseStringBody ([] ++ '"' :: rest) = .ok ([], rest)
    rw [List.nil_append, parseStringBody.eq_def]
    simp
  | cons c s ih =>
    intro rest
    have hstep : escapeString (c :: s) = escapeChar c ++ escapeString s :=
      List.flatMap_cons ..
    rw [hstep, List.append_assoc]
    by_cases h1 : c = '"'
    · subst h1
      simp only [escapeChar, if_pos rfl, List.cons_append, List.nil_append]
      rw [parseStringBody.eq_def]
      simp [escDecode, ih rest, Except.map]
    · by_cases h2 : c = '\\'
      · subst h2
        simp only [escapeChar, if_neg h1, if_pos rfl, List.cons_append, List.nil_append]
        rw [parseStringBody.eq_def]
        simp [escDecode, ih rest, Except.map]
      · by_cases h3 : c = '\n'
        · subst h3
          simp only [escapeChar, if_neg h1, if_neg h2, if_pos rfl, List.cons_append,
            List.nil_append]
          rw [parseStringBody.eq_def]
          simp [escDecode, ih rest, Except.map]
        · by_cases h4 : c = '\r'
          · subst h4
            simp only [escapeChar, if_neg h1, if_neg h2, if_neg h3, if_pos rfl,
              List.cons_append, List.nil_append]
            rw [parseStringBody.eq_def]
            simp [escDecode, ih rest, Except.map]
          · by_cases h5 : c = '\t'
            · subst h5
              simp only [escapeChar, if_neg h1, if_neg h2, if_neg h3, if_neg h4,
                if_pos rfl, List.cons_append, List.nil_append]
              rw [parseStringBody.eq_def]
              simp [escDecode, ih rest, Except.map]
            · by_cases h6 : c.toNat = 8
              · have hc : Char.ofNat 8 = c := by rw [← h6, Char.ofNat_toNat]
                simp only [escapeChar, if_neg h1, if_neg h2, if_neg h3, if_neg h4,
                  if_neg h5, h6, if_pos rfl, List.cons_append, List.nil_append]
                rw [parseStringBody.eq_def]
                simp only [escDecode]
                simp [ih rest, Except.map]
                exact hc
              · by_cases h7 : c.toNat = 12
                · have hc : Char.ofNat 12 = c := by rw [← h7, Char.ofNat_toNat]
                  simp only [escapeChar, if_neg h1, if_neg h2, if_neg h3, if_neg h4,
                    if_neg h5, h6, if_false, h7, if_pos rfl, if_true,
                    List.cons_append, List.nil_append]
                  rw [parseStringBody.eq_def]
                  simp only [escDecode]
                  simp [ih rest, Except.map]
                  exact hc
                · by_cases h8 : c.toNat < 32
                  · have hd1 : hexVal (hexDigitChar (c.toNat / 16)) =
                        some (c.toNat / 16) := hexVal_hexDigitChar _ (by omega)
                    have hd2 : hexVal (hexDigitChar (c.toNat % 16)) =
                        some (c.toNat % 16) := hexVal_hexDigitChar _ (by omega)
                    have harith : ((0 * 16 + 0) * 16 + c.toNat / 16) * 16 + c.toNat % 16
                        = c.toNat := by omega
                    simp only [escapeChar, if_neg h1, if_neg h2, if_neg h3, if_neg h4,
                      if_neg h5, h6, h7, if_false, h8, if_pos rfl, if_true,
                      List.cons_append, List.nil_append]
                    rw [parseStringBody.eq_def]
                    simp only [show hexVal '0' = some 0 from rfl, hd1, hd2]
                    simp [ih rest, Except.map]
                    rw [show c.toNat / 16 * 16 + c.toNat % 16 = c.toNat by omega,
                      Char.ofNat_toNat]
                  · simp only [escapeChar, if_neg h1, if_neg h2, if_neg h3, if_neg h4,
                      if_neg h5, h6, h7, h8, if_false, List.cons_append,
                      List.nil_append]
                    rw [parseStringBody.eq_def]
                    simp [h1, h2, ih rest, Except.map]


theorem digitChar_isDigit (d : Nat) (h : d < 10) : (digitChar d).isDigit = true := by
  interval_cases d <;> decide

theorem digitChar_toNat (d : Nat) (h : d < 10) : (digitChar d).toNat = 48 + d := by
  interval_cases d <;> decide

theorem digitChar_not_ws (d : Nat) (h : d < 10) : isJsonWs (digitChar d) = false := by
  interval_cases d <;> decide

theorem natToChars_head (n : Nat) :
    ∃ d t, d < 10 ∧ natToChars n = digitChar d :: t := by
  induction n using Nat.strong_induction_on with
  | _ n ih =>
    by_cases h : n < 10
    · exact ⟨n, [], h, by rw [natToChars]; simp [h]⟩
    · obtain ⟨d, t, hd, ht⟩ := ih (n / 10) (Nat.div_lt_self (by omega) (by omega))
      exact ⟨d, t ++ [digitChar (n % 10)], hd, by rw [natToChars]; simp [h, ht]⟩

theorem natToChars_all_digits (n : Nat) :
    ∀ c ∈ natToChars n, c.isDigit = true := by
  induction n using Nat.strong_induction_on with
  | _ n ih =>
    intro c hc
    rw [natToChars] at hc
    by_cases h : n < 10
    · simp [h] at hc
      subst hc
      exact digitChar_isDigit n h
    · simp [h] at hc
      rcases hc with hc | hc
      · exact ih (n / 10) (Nat.div_lt_self (by omega) (by omega)) c hc
      · subst hc
        exact digitChar_isDigit _ (by omega)

theorem natToChars_foldl (n : Nat) : ∀ (a : Nat),
    (natToChars n).foldl (fun acc c => acc * 10 + (c.toNat - 48)) a =
      a * 10 ^ (natToChars n).length + n := by
  induction n using Nat.strong_induction_on with
  | _ n ih =>
    intro a
    rw [natToChars]
    by_cases h : n < 10
    · simp [h, List.foldl, digitChar_toNat n h]
    · simp only [h, if_false, dite_false, List.foldl_append, List.foldl_cons,
        List.foldl_nil, List.length_append, List.length_cons, List.length_nil]
      rw [ih (n / 10) (Nat.div_lt_self (by omega) (by omega)) a]
      rw [digitChar_toNat _ (by omega)]
      have hmod : n / 10 * 10 + (48 + n % 10 - 48) = n := by omega
      set K := 10 ^ (natToChars (n / 10)).length with hK
      calc (a * K + n / 10) * 10 + (48 + n % 10 - 48)
          = a * (K * 10) + (n / 10 * 10 + (48 + n % 10 - 48)) := by ring
        _ = a * 10 ^ ((natToChars (n / 10)).length + (0 + 1)) + n := by
            rw [hmod, hK]
            rw [show (natToChars (n / 10)).length + (0 + 1)
              = (natToChars (n / 10)).length + 1 from rfl, pow_succ]

theorem takeWhile_append_all {p : Char → Bool} :
    ∀ (l r : List Char), (∀ c ∈ l, p c = true) →
      (l ++ r).takeWhile p = l ++ r.takeWhile p := by
  intro l r hl
  induction l with
  | nil => simp
  | cons a t ih =>
    have ha : p a = true := hl a (by simp)
    simp only [List.cons_append, List.takeWhile_cons, ha, if_true]
    rw [ih (fun c hc => hl c (by simp [hc]))]

theorem parseNatDigits_natToChars (n : Nat) (rest : List Char)
    (hrest : ∀ c, rest.head? = some c → c.isDigit = false) :
    parseNatDigits (natToChars n ++ rest) = some (n, rest) := by
  have hrtw : rest.takeWhile Char.isDigit = [] := by
    cases rest with
    | nil => rfl
    | cons c t =>
      have := hrest c rfl
      simp [List.takeWhile_cons, this]
  have htake : (natToChars n ++ rest).takeWhile Char.isDigit = natToChars n := by
    rw [takeWhile_append_all _ _ (natToChars_all_digits n), hrtw, List.append_nil]
  unfold parseNatDigits
  rw [htake]
  obtain ⟨d, t, hd, ht⟩ := natToChars_head n
  rw [if_neg (by rw [ht]; simp)]
  rw [natToChars_foldl n 0, List.drop_left]
  simp


theorem stringifyV_head (j : Json) :
    ∃ c t, stringifyV j = c :: t ∧ isJsonWs c = false ∧ c ≠ ']' := by
  cases j with
  | null => exact ⟨'n', _, rfl, by decide, by decide⟩
  | bool b => cases b with
    | true => exact ⟨'t', _, rfl, by decide, by decide⟩
    | false => exact ⟨'f', _, rfl, by decide, by decide⟩
  | num n =>
    by_cases h : n < 0
    · refine ⟨'-', natToChars n.natAbs, ?_, by decide, by decide⟩
      simp [stringifyV, intToChars, h]
    · obtain ⟨d, t, hd, ht⟩ := natToChars_head n.toNat
      refine ⟨digitChar d, t, ?_, digitChar_not_ws d hd, ?_⟩
      · simp [stringifyV, intToChars, h, ht]
      · have := digitChar_toNat d hd
        intro he
        rw [he] at this
        simp at this
        omega
  | str s => exact ⟨'"', _, rfl, by decide, by decide⟩
  | arr xs => exact ⟨'[', _, rfl, by decide, by decide⟩
  | obj kvs => exact ⟨'{', _, rfl, by decide, by decide⟩

theorem stringifyV_ne_nil (j : Json) : stringifyV j ≠ [] := by
  obtain ⟨c, t, h, _, _⟩ := stringifyV_head j
  simp [h]


theorem hexDigitChar_ne_nl (m : Nat) (h : m < 16) : hexDigitChar m ≠ '\n' := by
  interval_cases m <;> decide

theorem escapeChar_no_nl (c : Char) : '\n' ∉ escapeChar c := by
  unfold escapeChar
  by_cases h1 : c = '"'
  · simp [h1]
  · by_cases h2 : c = '\\'
    · simp [h1, h2]
    · by_cases h3 : c = '\n'
      · simp [h1, h2, h3]
      · by_cases h4 : c = '\r'
        · simp [h1, h2, h3, h4]
        · by_cases h5 : c = '\t'
          · simp [h1, h2, h3, h4, h5]
          · by_cases h6 : c.toNat = 8
            · simp [h1, h2, h3, h4, h5, h6]
            · by_cases h7 : c.toNat = 12
              · simp [h1, h2, h3, h4, h5, h6, h7]
              · by_cases h8 : c.toNat < 32
                · simp only [h1, h2, h3, h4, h5, h6, h7, h8, if_false, if_true,
                    if_pos, List.mem_cons]
                  push_neg
                  refine ⟨by decide, by decide, by decide, by decide, ?_, ?_, by simp⟩
                  · exact fun he => hexDigitChar_ne_nl _ (by omega) he.symm
                  · exact fun he => hexDigitChar_ne_nl _ (by omega) he.symm
                · simp only [h1, h2, h3, h4, h5, h6, h7, h8, if_false,
                    List.mem_singleton]
                  intro he
                  subst he
                  exact h3 rfl

theorem escapeString_no_nl (s : List Char) : '\n' ∉ escapeString s := by
  unfold escapeString
  intro hmem
  obtain ⟨c, _, hc⟩ := List.mem_flatMap.mp hmem
  exact escapeChar_no_nl c hc

theorem intToChars_no_nl (n : Int) : '\n' ∉ intToChars n := by
  unfold intToChars
  have hnat : ∀ m : Nat, '\n' ∉ natToChars m := by
    intro m hm
    have := natToChars_all_digits m '\n' hm
    simp [Char.isDigit] at this
  by_cases h : n < 0
  · simp only [h, if_true, List.mem_cons]
    rintro (he | hm)
    · exact absurd he (by decide)
    · exact hnat _ hm
  · simp only [h, if_false]
    exact hnat _

mutual

theorem stringifyV_no_nl (j : Json) : '\n' ∉ stringifyV j := by
  cases j with
  | null => decide
  | bool b => cases b <;> decide
  | num n => exact intToChars_no_nl n
  | str s =>
    simp only [stringifyV, List.mem_cons, List.mem_append, List.mem_singleton]
    push_neg
    exact ⟨by decide, escapeString_no_nl s, by decide⟩
  | arr xs =>
    simp only [stringifyV, List.mem_cons, List.mem_append, List.mem_singleton]
    push_neg
    exact ⟨by decide, stringifyElems_no_nl xs, by decide⟩
  | obj kvs =>
    simp only [stringifyV, List.mem_cons, List.mem_append, List.mem_singleton]
    push_neg
    exact ⟨by decide, stringifyFields_no_nl kvs, by decide⟩

theorem stringifyElems_no_nl (xs : List Json) : '\n' ∉ stringifyElems xs := by
  cases xs with
  | nil => simp [stringifyElems]
  | cons x ys =>
    cases ys with
    | nil =>
      simp only [stringifyElems]
      exact stringifyV_no_nl x
    | cons y zs =>
      simp only [stringifyElems, List.mem_append, List.mem_cons]
      push_neg
      exact ⟨stringifyV_no_nl x, by decide, stringifyElems_no_nl (y :: zs)⟩

theorem stringifyFields_no_nl (kvs : List (List Char × Json)) :
    '\n' ∉ stringifyFields kvs := by
  cases kvs with
  | nil => simp [stringifyFields]
  | cons kv kvs2 =>
    obtain ⟨k, v⟩ := kv
    cases kvs2 with
    | nil =>
      simp only [stringifyFields, List.mem_cons, List.mem_append]
      push_neg
      exact ⟨by decide, escapeString_no_nl k, by decide, by decide,
        stringifyV_no_nl v⟩
    | cons kv2 kvs3 =>
      simp only [stringifyFields, List.mem_append, List.mem_cons]
      push_neg
      exact ⟨⟨by decide, escapeString_no_nl k, by decide, by decide,
        stringifyV_no_nl v⟩, by decide, stringifyFields_no_nl (kv2 :: kvs3)⟩

end

theorem skipWs_cons_not_ws (c : Char) (t : List Char) (h : isJsonWs c = false) :
    skipWs (c :: t) = c :: t := by
  simp [skipWs, List.dropWhile_cons, h]

theorem numGuard_cons (j : Json) (c : Char) (t : List Char) (h : c.isDigit = false) :
    numGuard j (c :: t) := by
  cases j <;> try trivial
  intro c2 hc2
  simp only [List.head?_cons, Option.some.injEq] at hc2
  rw [← hc2]
  exact h

theorem parse_stringify (f : Nat) :
    (∀ (j : Json) (rest : List Char), 2 * (stringifyV j).length < f →
      numGuard j rest →
      parseValue f (stringifyV j ++ rest) = .ok (j, rest)) ∧
    (∀ (xs : List Json) (rest : List Char), xs ≠ [] →
      2 * (stringifyElems xs).length + 1 < f →
      parseElems f (stringifyElems xs ++ ']' :: rest) = .ok (xs, rest)) ∧
    (∀ (kvs : List (List Char × Json)) (rest : List Char), kvs ≠ [] →
      2 * (stringifyFields kvs).length + 1 < f →
      parseFields f (stringifyFields kvs ++ '}' :: rest) = .ok (kvs, rest)) := by
  induction f with
  | zero =>
    exact ⟨fun j rest h _ => absurd h (by omega),
      fun xs rest _ h => absurd h (by omega),
      fun kvs rest _ h => absurd h (by omega)⟩
  | succ f ih =>
    obtain ⟨ihP, ihQ, ihR⟩ := ih
    refine ⟨?_, ?_, ?_⟩
    · -- values
      intro j rest hlen hguard
      cases j with
      | null =>
        rw [parseValue.eq_def]
        simp [stringifyV, skipWs, isJsonWs]
      | bool b =>
        cases b <;> (rw [parseValue.eq_def]; simp [stringifyV, skipWs, isJsonWs])
      | num n =>
        have hg : ∀ c, rest.head? = some c → c.isDigit = false := hguard
        by_cases hneg : n < 0
        · simp only [stringifyV, intToChars, hneg, if_true, List.cons_append]
          rw [parseValue.eq_def]
          try dsimp only
          rw [skipWs_cons_not_ws '-' _ (by decide)]
          simp only [show ('-' = '{') = False by simp, show ('-' = '[') = False by simp,
            show ('-' = '"') = False by simp, show ('-' = 't') = False by simp,
            show ('-' = 'f') = False by simp, show ('-' = 'n') = False by simp,
            eq_self_iff_true, if_false, if_true]
          rw [parseNatDigits_natToChars n.natAbs rest hg]
          try dsimp only
          have hval : -(n.natAbs : Int) = n := by omega
          rw [hval]
        · obtain ⟨d, t, hd, ht⟩ := natToChars_head n.toNat
          have hne : ¬ digitChar d = '{' ∧ ¬ digitChar d = '[' ∧
              ¬ digitChar d = '"' ∧ ¬ digitChar d = 't' ∧
              ¬ digitChar d = 'f' ∧ ¬ digitChar d = 'n' ∧
              ¬ digitChar d = '-' := by
            interval_cases d <;> exact (by decide)
          simp only [stringifyV, intToChars, hneg, if_false, ht, List.cons_append]
          rw [parseValue.eq_def]
          try dsimp only
          rw [skipWs_cons_not_ws _ _ (digitChar_not_ws d hd)]
          try dsimp only
          rw [if_neg hne.1, if_neg hne.2.1, if_neg hne.2.2.1, if_neg hne.2.2.2.1,
            if_neg hne.2.2.2.2.1, if_neg hne.2.2.2.2.2.1, if_neg hne.2.2.2.2.2.2,
            if_pos (digitChar_isDigit d hd)]
          rw [show digitChar d :: (t ++ rest) = (digitChar d :: t) ++ rest from rfl,
            ← ht, parseNatDigits_natToChars n.toNat rest hg]
          try dsimp only
          have hval : (n.toNat : Int) = n := by omega
          rw [hval]
      | str s =>
        simp only [stringifyV, List.cons_append]
        rw [parseValue.eq_def]
        dsimp only
        rw [skipWs_cons_not_ws '"' _ (by decide)]
        simp only [List.append_assoc, List.singleton_append]
        simp [escape_roundtrip s rest, Except.map]
      | arr xs =>
        cases xs with
        | nil =>
          rw [parseValue.eq_def]
          simp [stringifyV, stringifyElems, skipWs, isJsonWs]
        | cons x ys =>
          obtain ⟨c0, t0, hx, hxws, hxne⟩ := stringifyV_head x
          have hhead : ∃ t1, stringifyElems (x :: ys) = c0 :: t1 := by
            cases ys with
            | nil => exact ⟨t0, by simp [stringifyElems, hx]⟩
            | cons y zs =>
              exact ⟨t0 ++ ',' :: stringifyElems (y :: zs),
                by simp [stringifyElems, hx]⟩
          obtain ⟨t1, ht1⟩ := hhead
          have hlen2 : 2 * (stringifyElems (x :: ys)).length + 1 < f := by
            simp only [stringifyV, List.length_cons, List.length_append,
              List.length_singleton] at hlen
            omega
          simp only [stringifyV, List.cons_append]
          rw [parseValue.eq_def]
          try dsimp only
          rw [skipWs_cons_not_ws '[' _ (by decide)]
          try dsimp only
          rw [if_neg (by decide : ¬ ('[' : Char) = '{'), if_pos rfl]
          rw [List.append_assoc, List.singleton_append]
          rw [show stringifyElems (x :: ys) ++ ']' :: rest = c0 :: (t1 ++ ']' :: rest)
            by rw [ht1]; rfl]
          rw [skipWs_cons_not_ws c0 _ hxws]
          rw [show c0 :: (t1 ++ ']' :: rest) = stringifyElems (x :: ys) ++ ']' :: rest
            by rw [ht1]; rfl]
          split
          · next r2 heq =>
            rw [ht1] at heq
            exact absurd (List.head_eq_of_cons_eq heq) hxne
          · next =>
            rw [ihQ (x :: ys) rest (by simp) hlen2]
            simp [Except.map]
      | obj kvs =>
        cases kvs with
        | nil =>
          rw [parseValue.eq_def]
          simp [stringifyV, stringifyFields, skipWs, isJsonWs]
        | cons kv kvs2 =>
          obtain ⟨k, v⟩ := kv
          have hhead : ∃ t1, stringifyFields ((k, v) :: kvs2) = '"' :: t1 := by
            cases kvs2 with
            | nil => exact ⟨escapeString k ++ '"' :: ':' :: stringifyV v,
                by simp [stringifyFields]⟩
            | cons kv2 kvs3 =>
              exact ⟨(escapeString k ++ '"' :: ':' :: stringifyV v) ++
                ',' :: stringifyFields (kv2 :: kvs3), by simp [stringifyFields]⟩
          obtain ⟨t1, ht1⟩ := hhead
          have hlen2 : 2 * (stringifyFields ((k, v) :: kvs2)).length + 1 < f := by
            simp only [stringifyV, List.length_cons, List.length_append,
              List.length_singleton] at hlen
            omega
          simp only [stringifyV, List.cons_append]
          rw [parseValue.eq_def]
          try dsimp only
          rw [skipWs_cons_not_ws '{' _ (by decide)]
          try dsimp only
          rw [if_pos rfl]
          rw [List.append_assoc, List.singleton_append]
          rw [show stringifyFields ((k, v) :: kvs2) ++ '}' :: rest
            = '"' :: (t1 ++ '}' :: rest) by rw [ht1]; rfl]
          rw [skipWs_cons_not_ws '"' _ (by decide)]
          rw [show ('"' : Char) :: (t1 ++ '}' :: rest)
            = stringifyFields ((k, v) :: kvs2) ++ '}' :: rest by rw [ht1]; rfl]
          split
          · next r2 heq =>
            rw [ht1] at heq
            have := List.head_eq_of_cons_eq heq
            exact absurd this (by decide)
          · next =>
            rw [ihR ((k, v) :: kvs2) rest (by simp) hlen2]
            simp [Except.map]
    · -- array elements
      intro xs rest hne hlen
      cases xs with
      | nil => exact absurd rfl hne
      | cons x ys =>
        cases ys with
        | nil =>
          have harith : 2 * (stringifyV x).length < f := by
            simp only [stringifyElems, List.length_append, List.length_cons] at hlen
            omega
          simp only [stringifyElems]
          rw [parseElems.eq_def]
          try dsimp only
          rw [ihP x (']' :: rest) harith (numGuard_cons x ']' rest (by decide))]
          try dsimp only
          rw [skipWs_cons_not_ws ']' _ (by decide)]
          simp
        | cons y zs =>
          have harithx : 2 * (stringifyV x).length < f := by
            simp only [stringifyElems, List.length_append, List.length_cons] at hlen
            omega
          have harithy : 2 * (stringifyElems (y :: zs)).length + 1 < f := by
            simp only [stringifyElems, List.length_append, List.length_cons] at hlen ⊢
            omega
          simp only [stringifyElems, List.append_assoc, List.cons_append]
          rw [parseElems.eq_def]
          try dsimp only
          rw [ihP x (',' :: (stringifyElems (y :: zs) ++ ']' :: rest)) harithx
            (numGuard_cons x ',' _ (by decide))]
          simp [skipWs_cons_not_ws ',' _ (by decide),
            ihQ (y :: zs) rest (by simp) harithy, Except.map]
    · -- object fields
      intro kvs rest hne hlen
      cases kvs with
      | nil => exact absurd rfl hne
      | cons kv kvs2 =>
        obtain ⟨k, v⟩ := kv
        cases kvs2 with
        | nil =>
          have harith : 2 * (stringifyV v).length < f := by
            simp only [stringifyFields, List.length_append, List.length_cons] at hlen
            omega
          simp only [stringifyFields, List.cons_append, List.append_assoc,
            List.cons_append]
          rw [parseFields.eq_def]
          try dsimp only
          simp [skipWs_cons_not_ws '"' _ (by decide),
            escape_roundtrip k (':' :: (stringifyV v ++ '}' :: rest)),
            skipWs_cons_not_ws ':' _ (by decide),
            ihP v ('}' :: rest) harith (numGuard_cons v '}' rest (by decide)),
            skipWs_cons_not_ws '}' _ (by decide), Except.map]
        | cons kv2 kvs3 =>
          have harithv : 2 * (stringifyV v).length < f := by
            simp only [stringifyFields, List.length_append, List.length_cons] at hlen
            omega
          have harith2 : 2 * (stringifyFields (kv2 :: kvs3)).length + 1 < f := by
            simp only [stringifyFields, List.length_append, List.length_cons] at hlen ⊢
            omega
          simp only [stringifyFields, List.cons_append, List.append_assoc,
            List.cons_append]
          rw [parseFields.eq_def]
          try dsimp only
          simp [skipWs_cons_not_ws '"' _ (by decide),
            escape_roundtrip k
              (':' :: (stringifyV v ++ ',' :: (stringifyFields (kv2 :: kvs3) ++ '}' :: rest))),
            skipWs_cons_not_ws ':' _ (by decide),
            ihP v (',' :: (stringifyFields (kv2 :: kvs3) ++ '}' :: rest)) harithv
              (numGuard_cons v ',' _ (by decide)),
            skipWs_cons_not_ws ',' _ (by decide),
            ihR (kv2 :: kvs3) rest (by simp) harith2, Except.map]



theorem numGuard_nil (j : Json) : numGuard j [] := by
  cases j <;> try trivial
  intro c hc
  exact absurd hc (by simp)

theorem parseJson_stringify (j : Json) : parseJson (stringifyV j) = .ok j := by
  have hP := (parse_stringify (2 * (stringifyV j).length + 2)).1 j [] (by omega)
    (numGuard_nil j)
  rw [List.append_nil] at hP
  unfold parseJson
  rw [hP]
  rfl

theorem trimChars_eq_self (s : List Char)
    (h1 : ∀ c, s.head? = some c → isJsonWs c = false)
    (h2 : ∀ c, s.getLast? = some c → isJsonWs c = false) :
    trimChars s = s := by
  unfold trimChars
  have hd : s.dropWhile isJsonWs = s := by
    cases s with
    | nil => rfl
    | cons c t => simp [List.dropWhile_cons, h1 c rfl]
  rw [hd]
  have hr : s.reverse.dropWhile isJsonWs = s.reverse := by
    cases hrev : s.reverse with
    | nil => rfl
    | cons c t =>
      have : s.getLast? = some c := by
        rw [← List.head?_reverse, hrev]
        rfl
      simp [List.dropWhile_cons, h2 c this]
  rw [hr, List.reverse_reverse]

theorem findFirst_range' (p : Nat → Bool) :
    ∀ (len start k : Nat), (∀ i, start ≤ i → i < k → p i = false) → p k = true →
      start ≤ k → k < start + len → (List.range' start len).find? p = some k := by
  intro len
  induction len with
  | zero => intro start k _ _ _ h; omega
  | succ len ih =>
    intro start k hbelow hk hsk hkl
    rw [List.range'_succ, List.find?_cons]
    by_cases he : start = k
    · subst he
      rw [hk]
    · rw [hbelow start le_rfl (by omega)]
      exact ih (start + 1) k (fun i h1 h2 => hbelow i (by omega) h2) hk (by omega)
        (by omega)

theorem jsReplaceTrailFence_strip (S : List Char)
    (hnl : '\n' ∉ S) :
    jsReplaceTrailFence (S ++ ['\n', '`', '`', '`']) = S := by
  unfold jsReplaceTrailFence
  have hp : (fun i => isTrailFenceAt ((S ++ ['\n', '`', '`', '`']).drop i)) S.length
      = true := by
    show isTrailFenceAt ((S ++ ['\n', '`', '`', '`']).drop S.length) = true
    rw [List.drop_left]
    rfl
  have hbelow : ∀ i, 0 ≤ i → i < S.length →
      (fun i => isTrailFenceAt ((S ++ ['\n', '`', '`', '`']).drop i)) i = false := by
    intro i _ hi
    have hdrop : (S ++ ['\n', '`', '`', '`']).drop i = S.drop i ++ ['\n', '`', '`', '`'] :=
      List.drop_append_of_le_length (by omega)
    simp only [hdrop]
    cases hsd : S.drop i with
    | nil => exact absurd (by simpa using congrArg List.length hsd) (by omega)
    | cons c t =>
      have hc : c ∈ S := by
        have : c ∈ S.drop i := by rw [hsd]; simp
        exact List.mem_of_mem_drop this
      have hcn : ¬ c = '\n' := fun he => hnl (he ▸ hc)
      unfold isTrailFenceAt
      simp [List.take, hcn]
  have hfind := findFirst_range' (fun i => isTrailFenceAt ((S ++ ['\n', '`', '`', '`']).drop i))
    (S ++ ['\n', '`', '`', '`']).length 0 S.length (fun i h1 h2 => hbelow i h1 h2) hp
    (by omega) (by simp)
  rw [← List.range_eq_range'] at hfind
  rw [hfind]
  exact List.take_left S _

theorem stringify_obj_shape (kvs : List (List Char × Json)) :
    stringifyV (.obj kvs) = '{' :: (stringifyFields kvs ++ ['}']) := by
  rw [stringifyV]

theorem jsReplaceLeadFence_strip (S E : List Char) (tag : Bool)
    (hS : ∃ c t, S = c :: t ∧ isJsonWs c = false) :
    jsReplaceLeadFence ('`' :: '`' :: '`' ::
      ((if tag then ['j', 's', 'o', 'n'] else []) ++ '\n' :: (S ++ E))) =
      S ++ E := by
  obtain ⟨c, t, hSc, hcw⟩ := hS
  have htw : List.takeWhile isJsonWs ('\n' :: (S ++ E)) = ['\n'] := by
    rw [hSc]
    simp [List.takeWhile_cons, hcw, show isJsonWs '\n' = true by decide]
  have hwnl : wsThenNl ('\n' :: (S ++ E)) = some (S ++ E) := by
    unfold wsThenNl
    rw [htw]
    rfl
  cases tag with
  | true =>
    unfold jsReplaceLeadFence
    simp [hwnl]
  | false =>
    unfold jsReplaceLeadFence
    simp [hwnl]

theorem jsonSpan_self (F : List Char) :
    jsonSpan ('{' :: (F ++ ['}'])) = some ('{' :: (F ++ ['}'])) := by
  have hfirst : firstIdxOf '{' ('{' :: (F ++ ['}'])) = some 0 := by
    unfold firstIdxOf
    rw [List.findIdx?_cons]
    simp
  have hrev : ('{' :: (F ++ ['}'])).reverse = '}' :: (F.reverse ++ ['{']) := by
    simp
  have hlast : lastIdxOf '}' ('{' :: (F ++ ['}'])) = some (F.length + 1) := by
    unfold lastIdxOf
    rw [hrev, List.findIdx?_cons]
    simp
  unfold jsonSpan
  rw [hfirst, hlast]
  dsimp only
  rw [if_pos (show (0 : Nat) < F.length + 1 by omega)]
  rw [List.drop_zero]
  rw [show F.length + 1 - 0 + 1 = ('{' :: (F ++ ['}'])).length by
    simp only [List.length_cons, List.length_append, List.length_singleton,
      List.length_nil]
    omega]
  rw [List.take_length]

theorem cleanedText_fenceWrap (kvs : List (List Char × Json)) (tag : Bool) :
    cleanedText (fenceWrap tag (stringifyV (.obj kvs))) = stringifyV (.obj kvs) := by
  have hshape : stringifyV (.obj kvs) = '{' :: (stringifyFields kvs ++ ['}']) :=
    stringify_obj_shape kvs
  have hnl : '\n' ∉ stringifyV (.obj kvs) := stringifyV_no_nl _
  have hsplit : fenceWrap tag (stringifyV (.obj kvs)) =
      ('`' :: '`' :: '`' :: ((if tag then ['j', 's', 'o', 'n'] else []) ++
        '\n' :: stringifyV (.obj kvs))) ++ ['\n', '`', '`', '`'] := by
    cases tag <;> simp [fenceWrap]
  have htrim : trimChars (fenceWrap tag (stringifyV (.obj kvs))) =
      fenceWrap tag (stringifyV (.obj kvs)) := by
    apply trimChars_eq_self
    · intro c hc
      cases tag <;>
        (simp only [fenceWrap, List.head?_cons, Option.some.injEq] at hc;
         rw [← hc]; decide)
    · intro c hc
      have hrev : (fenceWrap tag (stringifyV (.obj kvs))).getLast? = some '`' := by
        rw [← List.head?_reverse, hsplit]
        simp
      rw [hrev] at hc
      simp only [Option.some.injEq] at hc
      rw [← hc]
      decide
  have htake : (fenceWrap tag (stringifyV (.obj kvs))).take 3 = ['`', '`', '`'] := by
    cases tag <;> rfl
  have hstrip : jsReplaceLeadFence (fenceWrap tag (stringifyV (.obj kvs))) =
      stringifyV (.obj kvs) ++ ['\n', '`', '`', '`'] :=
    jsReplaceLeadFence_strip (stringifyV (.obj kvs)) ['\n', '`', '`', '`'] tag
      ⟨'{', stringifyFields kvs ++ ['}'], hshape, by decide⟩
  unfold cleanedText
  dsimp only
  rw [htrim, if_pos htake, hstrip, jsReplaceTrailFence_strip _ hnl]
  rw [hshape, jsonSpan_self]

/-- C8: for every well-formed JSON object, serializing it, wrapping the
text in a markdown code fence (with or without the `json` language tag)
and applying the response parser returns the original object. -/
theorem claim_C8 (kvs : List (List Char × Json)) :
    (parseJsonResponse (fenceWrap true (stringifyV (.obj kvs)))).1 =
      .ok (.obj kvs) ∧
    (parseJsonResponse (fenceWrap false (stringifyV (.obj kvs)))).1 =
      .ok (.obj kvs) := by
  constructor <;>
    (unfold parseJsonResponse
     rw [cleanedText_fenceWrap]
     unfold parseCleaned
     rw [parseJson_stringify])

end Stablefoard
